import Mathlib

/-!
Verification of the chat session engine in `src/main.py` (Flask-SocketIO
multi-room chat).  The SocketIO event handlers are embedded as pure
functions over an explicit server state; Python dicts become
insertion-ordered association lists, Python sets become duplicate-free
lists, and the `try/except` wrappers become an explicit `Except` layer.
-/

namespace Chat

/-- Python-style dict lookup: value of the first entry with the given key. -/
def dictLookup {β : Type} (d : List (String × β)) (k : String) : Option β :=
  (d.find? (fun p => p.1 = k)).map (fun p => p.2)

/-- Python `k in d` membership test. -/
def dictMem {β : Type} (d : List (String × β)) (k : String) : Bool :=
  d.any (fun p => p.1 = k)

/-- Python `d[k] = v`: overwrite in place if the key exists, else append
(new keys go to the end of the insertion order). -/
def dictSet {β : Type} (d : List (String × β)) (k : String) (v : β) :
    List (String × β) :=
  if dictMem d k then d.map (fun p => if p.1 = k then (k, v) else p)
  else d ++ [(k, v)]

/-- Python `del d[k]` / `d.pop(k, None)`: drop the entry with the key. -/
def dictDel {β : Type} (d : List (String × β)) (k : String) :
    List (String × β) :=
  d.filter (fun p => ¬ p.1 = k)

/-- Python `set.add`: append unless already present. -/
def setAdd (s : List String) (x : String) : List String :=
  if x ∈ s then s else s ++ [x]

/-- Python `set.discard`: remove the element (sets have no duplicates,
but filtering all occurrences is the faithful set semantics). -/
def setDiscard (s : List String) (x : String) : List String :=
  s.filter (fun y => ¬ y = x)

/-- `Config.CHAT_ROOMS` from `src/main.py`. -/
def CHAT_ROOMS : List String :=
  ["Open Mic", "Code & Coffee", "XP Zone", "Study Squad",
   "Lo-Fi Corner", "Meme Stream", "Wellness Wave"]

/-- One entry of `active_users`: `{'username': ..., 'connected_at': ...}`,
with an optional `'room'` key added by `on_join`. -/
structure UserData where
  username : String
  connected_at : String
  room : Option String
deriving Repr, DecidableEq

/-- One entry of a room's `chat_history` list. -/
structure Message where
  msg : String
  username : String
  timestamp : String
  reactions : List (String × List String)
deriving Repr, DecidableEq

/-- The three in-memory stores of `src/main.py`. -/
structure ServerState where
  active_users : List (String × UserData)
  typing_users : List (String × List String)
  chat_history : List (String × List Message)
deriving Repr, DecidableEq

/-- Recipient scope of an outbound `emit`. -/
inductive Target where
  | broadcast : Target
  | toRoom (room : String) : Target
  | toSid (sid : String) : Target
deriving Repr, DecidableEq

/-- Outbound SocketIO events produced by the handlers. -/
inductive OutEvent where
  | activeUsers (users : List String) : OutEvent
  | status (msg : String) (type_ : String) (room : Option String)
      (timestamp : Option String) (tgt : Target) : OutEvent
  | chatHistory (room : String) (messages : List Message) (tgt : Target) :
      OutEvent
  | message (msg username room timestamp : String)
      (reactions : List (String × List String)) (tgt : Target) : OutEvent
  | privateMessage (msg from_ to_ timestamp : String) (tgt : Target) : OutEvent
  | reactionUpdate (index : Int) (reactions : List (String × List String))
      (tgt : Target) : OutEvent
deriving Repr, DecidableEq

/-- A decoded inbound payload dict; absent keys are `none`. -/
structure EventData where
  room : Option String
  type_ : Option String
  msg : Option String
  target : Option String
  index : Option Int
  emoji : Option String
  typing : Option Bool
deriving Repr, DecidableEq

/-- Python exceptions that the handler bodies can raise. -/
inductive PErr where
  | keyError (k : String) : PErr
deriving Repr, DecidableEq

/-- The `try:/except:` wrapper around a handler body: on any exception the
event is logged and dropped.  (In every wrapped handler of `src/main.py`
the possible raises occur before any state mutation, so returning the
original state is faithful.) -/
def tryExcept (s : ServerState)
    (r : Except PErr (ServerState × List OutEvent)) :
    ServerState × List OutEvent :=
  match r with
  | Except.ok v => v
  | Except.error _ => (s, [])

/-- `handle_connect` (src/main.py:140-156).  `authenticated` models
`current_user.is_authenticated`; an unauthenticated connect is rejected
with no state change and no emit. -/
def handle_connect (s : ServerState) (sid username now : String)
    (authenticated : Bool) : ServerState × List OutEvent :=
  if ¬ authenticated then (s, [])
  else
    let au := dictSet s.active_users sid
      { username := username, connected_at := now, room := none }
    ({ s with active_users := au },
     [OutEvent.activeUsers (au.map (fun p => p.2.username))])

/-- `handle_disconnect` (src/main.py:158-168). -/
def handle_disconnect (s : ServerState) (sid : String) :
    ServerState × List OutEvent :=
  if dictMem s.active_users sid then
    let au := dictDel s.active_users sid
    ({ s with active_users := au },
     [OutEvent.activeUsers (au.map (fun p => p.2.username))])
  else (s, [])

/-- Body of `on_join` (src/main.py:170-198), before the `except` clause.
`data['room']` raises when absent; an invalid room is logged and dropped;
`active_users[request.sid]['room'] = room` raises `KeyError` when the sid
is unknown; the history replay is emitted only `if room in chat_history`. -/
def on_join_body (s : ServerState) (data : EventData) (sid username now : String) :
    Except PErr (ServerState × List OutEvent) :=
  match data.room with
  | none => Except.error (PErr.keyError "room")
  | some room =>
    if ¬ room ∈ CHAT_ROOMS then Except.ok (s, [])
    else
      match dictLookup s.active_users sid with
      | none => Except.error (PErr.keyError sid)
      | some ud =>
        let s' := { s with
          active_users := dictSet s.active_users sid { ud with room := some room } }
        let e1 := OutEvent.status (username ++ " has joined the room.") "join"
          none (some now) (Target.toRoom room)
        let hist := match dictLookup s.chat_history room with
          | some msgs => [OutEvent.chatHistory room msgs (Target.toSid sid)]
          | none => []
        Except.ok (s', e1 :: hist)

/-- `on_join` with its `try/except`. -/
def on_join (s : ServerState) (data : EventData) (sid username now : String) :
    ServerState × List OutEvent :=
  tryExcept s (on_join_body s data sid username now)

/-- Body of `on_leave` (src/main.py:200-219). -/
def on_leave_body (s : ServerState) (data : EventData) (sid username now : String) :
    Except PErr (ServerState × List OutEvent) :=
  match data.room with
  | none => Except.error (PErr.keyError "room")
  | some room =>
    let s' :=
      match dictLookup s.active_users sid with
      | some ud =>
        { s with active_users := dictSet s.active_users sid { ud with room := none } }
      | none => s
    Except.ok (s', [OutEvent.status (username ++ " has left the room.") "leave"
      none (some now) (Target.toRoom room)])

/-- `on_leave` with its `try/except`. -/
def on_leave (s : ServerState) (data : EventData) (sid username now : String) :
    ServerState × List OutEvent :=
  tryExcept s (on_leave_body s data sid username now)

/-- `handle_message` (src/main.py:221-278).  The body uses only `.get`
accesses, so it raises nothing; the room defaults to `'General'`, empty
(post-strip) messages are dropped, private messages go to the first
registered connection whose username matches the target, and room
messages require a catalog room. -/
def handle_message (s : ServerState) (data : EventData)
    (username now : String) : ServerState × List OutEvent :=
  let room := data.room.getD "General"
  let msg_type := data.type_.getD "message"
  let message := (data.msg.getD "").trim
  if message = "" then (s, [])
  else if msg_type = "private" then
    match data.target with
    | none => (s, [])
    | some target_user =>
      if target_user = "" then (s, [])
      else
        match s.active_users.find? (fun p => p.2.username = target_user) with
        | some p =>
          (s, [OutEvent.privateMessage message username target_user now
            (Target.toSid p.1)])
        | none => (s, [])
  else
    if ¬ room ∈ CHAT_ROOMS then (s, [])
    else
      let h := (dictLookup s.chat_history room).getD []
      let m : Message :=
        { msg := message, username := username, timestamp := now, reactions := [] }
      ({ s with chat_history := dictSet s.chat_history room (h ++ [m]) },
       [OutEvent.message message username room now [] (Target.toRoom room)])

/-- The reaction toggle at the heart of `handle_reaction`
(src/main.py:292-304): ensure the emoji key, then remove the user (and
delete the entry if it became empty) or append the user. -/
def toggleReactions (reactions : List (String × List String))
    (emoji user : String) : List (String × List String) :=
  let r1 := if dictMem reactions emoji then reactions
            else dictSet reactions emoji []
  let cur := (dictLookup r1 emoji).getD []
  if user ∈ cur then
    let cur' := cur.erase user
    if cur' = [] then dictDel r1 emoji else dictSet r1 emoji cur'
  else dictSet r1 emoji (cur ++ [user])

/-- Body of `handle_reaction` (src/main.py:280-311).  The three `data[...]`
accesses raise when absent; the toggle happens only when the room has
history and `0 <= index < len(chat_history[room])`. -/
def handle_reaction_body (s : ServerState) (data : EventData) (user : String) :
    Except PErr (ServerState × List OutEvent) :=
  match data.room with
  | none => Except.error (PErr.keyError "room")
  | some room =>
    match data.index with
    | none => Except.error (PErr.keyError "index")
    | some msg_index =>
      match data.emoji with
      | none => Except.error (PErr.keyError "emoji")
      | some emoji =>
        let h := (dictLookup s.chat_history room).getD []
        if dictMem s.chat_history room ∧ 0 ≤ msg_index ∧
            msg_index < (h.length : Int) then
          let message := h.getD msg_index.toNat
            { msg := "", username := "", timestamp := "", reactions := [] }
          let reactions := toggleReactions message.reactions emoji user
          let h' := h.set msg_index.toNat { message with reactions := reactions }
          Except.ok ({ s with chat_history := dictSet s.chat_history room h' },
            [OutEvent.reactionUpdate msg_index reactions (Target.toRoom room)])
        else Except.ok (s, [])

/-- `handle_reaction` with its `try/except`. -/
def handle_reaction (s : ServerState) (data : EventData) (user : String) :
    ServerState × List OutEvent :=
  tryExcept s (handle_reaction_body s data user)

/-- The status-string computation of `handle_typing` (src/main.py:329-337),
applied to `list(users_typing)`. -/
def statusMsg (others : List String) : String :=
  if others.length = 0 then ""
  else if others.length = 1 then (others.getD 0 "") ++ " is typing..."
  else if others.length = 2 then
    (others.getD 0 "") ++ " and " ++ (others.getD 1 "") ++ " are typing..."
  else "Several people are typing..."

/-- `handle_typing` (src/main.py:313-343).  NOTE: unlike the other payload
handlers this one has no `try/except`, so the `data['room']` and
`data['typing']` accesses propagate `KeyError`. -/
def handle_typing (s : ServerState) (data : EventData) (username : String) :
    Except PErr (ServerState × List OutEvent) :=
  match data.room with
  | none => Except.error (PErr.keyError "room")
  | some room =>
    match data.typing with
    | none => Except.error (PErr.keyError "typing")
    | some typing =>
      let tu := if dictMem s.typing_users room then s.typing_users
                else dictSet s.typing_users room []
      let cur := (dictLookup tu room).getD []
      let updated := if typing then setAdd cur username
                     else setDiscard cur username
      let users_typing := updated.filter (fun y => ¬ y = username)
      let s' := { s with typing_users := dictSet tu room updated }
      Except.ok (s', [OutEvent.status (statusMsg users_typing) "typing"
        (some room) none (Target.toRoom room)])

/-- An inbound SocketIO event together with its connection context. -/
inductive InEvent where
  | connect (sid username now : String) (authenticated : Bool) : InEvent
  | disconnect (sid : String) : InEvent
  | join (data : EventData) (sid username now : String) : InEvent
  | leave (data : EventData) (sid username now : String) : InEvent
  | message (data : EventData) (username now : String) : InEvent
  | react (data : EventData) (user : String) : InEvent
  | typing (data : EventData) (username : String) : InEvent
deriving Repr, DecidableEq

/-- Dispatch of one inbound event to its handler.  Every handler except
`handle_typing` either has a `try/except` or cannot raise, so only the
`typing` arm can yield an error. -/
def dispatch (s : ServerState) (e : InEvent) :
    Except PErr (ServerState × List OutEvent) :=
  match e with
  | InEvent.connect sid username now auth =>
    Except.ok (handle_connect s sid username now auth)
  | InEvent.disconnect sid => Except.ok (handle_disconnect s sid)
  | InEvent.join data sid username now =>
    Except.ok (on_join s data sid username now)
  | InEvent.leave data sid username now =>
    Except.ok (on_leave s data sid username now)
  | InEvent.message data username now =>
    Except.ok (handle_message s data username now)
  | InEvent.react data user => Except.ok (handle_reaction s data user)
  | InEvent.typing data username => handle_typing s data username

/-- The state after one event (an uncaught exception in Python leaves the
stores as they were, since `handle_typing` mutates nothing before its
`data[...]` accesses). -/
def stepState (s : ServerState) (e : InEvent) : ServerState :=
  match dispatch s e with
  | Except.ok v => v.1
  | Except.error _ => s

/-- The empty initial state (`active_users = {}` etc., src/main.py:79-81). -/
def initialState : ServerState :=
  { active_users := [], typing_users := [], chat_history := [] }

/-- Default message used for out-of-range `getD` reads (never observed,
since all reads are bounds-checked). -/
def mdefault : Message :=
  { msg := "", username := "", timestamp := "", reactions := [] }

/-- A room's message history, empty when the room has no entry yet. -/
def histOf (s : ServerState) (room : String) : List Message :=
  (dictLookup s.chat_history room).getD []

/-- The immutable content of a message: text, author and timestamp
(everything but the mutable reactions). -/
def msgCore (m : Message) : String × String × String :=
  (m.msg, m.username, m.timestamp)

/-- The reactor list recorded for an emoji in a reactions mapping. -/
def reactorsOf (reactions : List (String × List String)) (emoji : String) :
    List String :=
  (dictLookup reactions emoji).getD []

/-- The reactions mapping of the message at position `i` of a room. -/
def reactionsAt (s : ServerState) (room : String) (i : Nat) :
    List (String × List String) :=
  ((histOf s room).getD i mdefault).reactions

/-- The reactor list for `(room, i, emoji)`. -/
def reactorList (s : ServerState) (room : String) (i : Nat) (emoji : String) :
    List String :=
  reactorsOf (reactionsAt s room i) emoji

/-- The payload of a `react_to_message` event. -/
def reactEvent (room : String) (idx : Int) (emoji : String) : EventData :=
  { room := some room, type_ := none, msg := none, target := none,
    index := some idx, emoji := some emoji, typing := none }

/-- The state transition of one `react_to_message` event. -/
def reactStep (room : String) (idx : Int) (emoji user : String)
    (s : ServerState) : ServerState :=
  (handle_reaction s (reactEvent room idx emoji) user).1

/-- C2's invariant: no emoji entry anywhere has an empty reactor set. -/
def NoEmptyReactions (s : ServerState) : Prop :=
  ∀ p ∈ s.chat_history, ∀ m ∈ p.2, ∀ q ∈ m.reactions, q.2 ≠ []

/-- Every reactor list is duplicate-free (reactors are only appended when
absent, so this holds in every reachable state). -/
def ReactNodup (s : ServerState) : Prop :=
  ∀ p ∈ s.chat_history, ∀ m ∈ p.2, ∀ q ∈ m.reactions, q.2.Nodup

instance (s : ServerState) : Decidable (NoEmptyReactions s) := by
  unfold NoEmptyReactions
  infer_instance

instance (s : ServerState) : Decidable (ReactNodup s) := by
  unfold ReactNodup
  infer_instance

/-! ### Association-list (Python dict) lemmas -/

theorem dictLookup_cons {β : Type} (p : String × β) (d : List (String × β))
    (k : String) :
    dictLookup (p :: d) k = if p.1 = k then some p.2 else dictLookup d k := by
  by_cases h : p.1 = k
  · simp [dictLookup, List.find?_cons_of_pos, h]
  · simp [dictLookup, List.find?_cons_of_neg, h]

theorem dictMem_cons {β : Type} (p : String × β) (d : List (String × β))
    (k : String) :
    dictMem (p :: d) k = ((p.1 = k : Bool) || dictMem d k) := by
  simp [dictMem]

theorem dictLookup_eq_none_of_not_mem {β : Type} {d : List (String × β)}
    {k : String} (h : dictMem d k = false) : dictLookup d k = none := by
  induction d with
  | nil => rfl
  | cons p t ih =>
    rw [dictMem_cons] at h
    rcases Bool.or_eq_false_iff.mp h with ⟨h1, h2⟩
    rw [dictLookup_cons, if_neg (by simpa using h1)]
    exact ih h2

theorem dictLookup_isSome_of_mem {β : Type} {d : List (String × β)}
    {k : String} (h : dictMem d k = true) : ∃ v, dictLookup d k = some v := by
  induction d with
  | nil => simp [dictMem] at h
  | cons p t ih =>
    rw [dictLookup_cons]
    by_cases hp : p.1 = k
    · exact ⟨p.2, by rw [if_pos hp]⟩
    · rw [dictMem_cons] at h
      rcases Bool.or_eq_true_iff.mp h with h1 | h2
      · exact absurd (by simpa using h1) hp
      · rw [if_neg hp]; exact ih h2

theorem dictLookup_mem {β : Type} {d : List (String × β)} {k : String}
    {v : β} (h : dictLookup d k = some v) : (k, v) ∈ d := by
  induction d with
  | nil => simp [dictLookup] at h
  | cons p t ih =>
    rw [dictLookup_cons] at h
    by_cases hp : p.1 = k
    · rw [if_pos hp] at h
      have hpkv : p = (k, v) := by
        cases p
        simp_all
      rw [← hpkv]
      exact List.mem_cons_self p t
    · rw [if_neg hp] at h
      exact List.mem_cons_of_mem _ (ih h)

theorem dictLookup_append {β : Type} (d e : List (String × β)) (k : String) :
    dictLookup (d ++ e) k =
      match dictLookup d k with
      | some v => some v
      | none => dictLookup e k := by
  induction d with
  | nil => rfl
  | cons p t ih =>
    by_cases hp : p.1 = k
    · simp [List.cons_append, dictLookup_cons, hp]
    · simpa [List.cons_append, dictLookup_cons, hp] using ih

theorem dictLookup_dictSet_self {β : Type} (d : List (String × β))
    (k : String) (v : β) : dictLookup (dictSet d k v) k = some v := by
  unfold dictSet
  by_cases hm : dictMem d k
  · rw [if_pos hm]
    induction d with
    | nil => simp [dictMem] at hm
    | cons p t ih =>
      by_cases hp : p.1 = k
      · simp [List.map_cons, dictLookup_cons, hp]
      · rw [dictMem_cons] at hm
        rcases Bool.or_eq_true_iff.mp hm with h1 | h2
        · exact absurd (by simpa using h1) hp
        · simpa [List.map_cons, dictLookup_cons, hp] using ih h2
  · rw [if_neg hm]
    rw [dictLookup_append, dictLookup_eq_none_of_not_mem (Bool.of_not_eq_true hm)]
    simp [dictLookup_cons]

theorem dictLookup_dictSet_ne {β : Type} (d : List (String × β))
    (k : String) (v : β) (k' : String) (h : ¬ k' = k) :
    dictLookup (dictSet d k v) k' = dictLookup d k' := by
  unfold dictSet
  by_cases hm : dictMem d k
  · rw [if_pos hm]
    clear hm
    induction d with
    | nil => rfl
    | cons p t ih =>
      by_cases hp : p.1 = k
      · rw [List.map_cons, if_pos hp, dictLookup_cons, dictLookup_cons,
          if_neg (fun hh : (k, v).1 = k' => h hh.symm),
          if_neg (fun hh : p.1 = k' => h (hh ▸ hp))]
        exact ih
      · rw [List.map_cons, if_neg hp, dictLookup_cons, dictLookup_cons]
        by_cases hq : p.1 = k'
        · simp [hq]
        · simp only [if_neg hq]
          exact ih
  · rw [if_neg hm, dictLookup_append]
    cases hfind : dictLookup d k' with
    | none =>
      rw [dictLookup_cons, if_neg (fun hh : (k, v).1 = k' => h hh.symm)]
      rfl
    | some p => rfl

theorem dictDel_cons {β : Type} (p : String × β) (d : List (String × β))
    (k : String) :
    dictDel (p :: d) k =
      if p.1 = k then dictDel d k else p :: dictDel d k := by
  by_cases hp : p.1 = k <;> simp [dictDel, List.filter_cons, hp]

theorem dictLookup_dictDel_self {β : Type} (d : List (String × β))
    (k : String) : dictLookup (dictDel d k) k = none := by
  induction d with
  | nil => rfl
  | cons p t ih =>
    rw [dictDel_cons]
    by_cases hp : p.1 = k
    · rw [if_pos hp]; exact ih
    · rw [if_neg hp, dictLookup_cons, if_neg hp]; exact ih

theorem dictLookup_dictDel_ne {β : Type} (d : List (String × β))
    (k k' : String) (h : ¬ k' = k) :
    dictLookup (dictDel d k) k' = dictLookup d k' := by
  induction d with
  | nil => rfl
  | cons p t ih =>
    rw [dictDel_cons]
    by_cases hp : p.1 = k
    · rw [if_pos hp, dictLookup_cons,
        if_neg (fun hh : p.1 = k' => h (hh ▸ hp))]
      exact ih
    · rw [if_neg hp, dictLookup_cons, dictLookup_cons]
      by_cases hq : p.1 = k'
      · simp [hq]
      · simp only [if_neg hq]
        exact ih

theorem dictMem_dictSet_self {β : Type} (d : List (String × β)) (k : String)
    (v : β) : dictMem (dictSet d k v) k = true := by
  have := dictLookup_dictSet_self d k v
  by_contra hc
  rw [dictLookup_eq_none_of_not_mem (Bool.of_not_eq_true hc)] at this
  exact Option.noConfusion this

theorem mem_dictSet {β : Type} {d : List (String × β)} {k : String} {v : β}
    {q : String × β} (h : q ∈ dictSet d k v) :
    q = (k, v) ∨ (q ∈ d ∧ ¬ q.1 = k) := by
  unfold dictSet at h
  by_cases hm : dictMem d k
  · rw [if_pos hm] at h
    rcases List.mem_map.mp h with ⟨p, hp, hq⟩
    by_cases hpk : p.1 = k
    · left; rw [if_pos hpk] at hq; exact hq.symm
    · right; rw [if_neg hpk] at hq; exact ⟨hq ▸ hp, hq ▸ hpk⟩
  · rw [if_neg hm] at h
    rcases List.mem_append.mp h with hq | hq
    · right
      refine ⟨hq, fun hk => ?_⟩
      have : dictMem d k = true := by
        simp only [dictMem, List.any_eq_true]
        exact ⟨q, hq, by simpa using hk⟩
      exact hm this
    · left; simpa using hq

theorem mem_dictDel {β : Type} {d : List (String × β)} {k : String}
    {q : String × β} (h : q ∈ dictDel d k) : q ∈ d ∧ ¬ q.1 = k := by
  unfold dictDel at h
  have := List.of_mem_filter h
  exact ⟨List.mem_of_mem_filter h, by simpa using this⟩

/-! ### Reaction-toggle lemmas -/

theorem dictLookup_ensure (R : List (String × List String)) (e : String) :
    dictLookup (if dictMem R e then R else dictSet R e []) e
      = some (reactorsOf R e) := by
  by_cases hm : dictMem R e
  · rw [if_pos hm]
    rcases dictLookup_isSome_of_mem hm with ⟨v, hv⟩
    rw [hv, reactorsOf, hv]
    rfl
  · rw [if_neg hm, dictLookup_dictSet_self, reactorsOf,
      dictLookup_eq_none_of_not_mem (Bool.of_not_eq_true hm)]
    rfl

theorem mem_ensure {R : List (String × List String)} {e : String}
    {q : String × List String}
    (hq : q ∈ (if dictMem R e then R else dictSet R e []))
    (hne : ¬ q.1 = e) : q ∈ R := by
  by_cases hm : dictMem R e
  · rwa [if_pos hm] at hq
  · rw [if_neg hm] at hq
    rcases mem_dictSet hq with hq1 | hq2
    · exact absurd (by rw [hq1]) hne
    · exact hq2.1

/-- The reactor list at the toggled emoji: remove the user when present
(first occurrence), append them otherwise. -/
theorem reactorsOf_toggle (R : List (String × List String)) (e u : String) :
    reactorsOf (toggleReactions R e u) e =
      if u ∈ reactorsOf R e then (reactorsOf R e).erase u
      else reactorsOf R e ++ [u] := by
  simp only [toggleReactions, dictLookup_ensure, Option.getD_some]
  by_cases hu : u ∈ reactorsOf R e
  · rw [if_pos hu, if_pos hu]
    by_cases hnil : (reactorsOf R e).erase u = []
    · rw [if_pos hnil, reactorsOf, dictLookup_dictDel_self, hnil]
      rfl
    · rw [if_neg hnil, reactorsOf, dictLookup_dictSet_self]
      rfl
  · rw [if_neg hu, if_neg hu, reactorsOf, dictLookup_dictSet_self]
    rfl

/-- The reactor list at any other emoji is untouched by the toggle. -/
theorem reactorsOf_toggle_ne (R : List (String × List String))
    (e u e' : String) (hne : ¬ e' = e) :
    reactorsOf (toggleReactions R e u) e' = reactorsOf R e' := by
  simp only [toggleReactions, dictLookup_ensure, Option.getD_some]
  have hens : dictLookup (if dictMem R e then R else dictSet R e []) e'
      = dictLookup R e' := by
    by_cases hm : dictMem R e
    · rw [if_pos hm]
    · rw [if_neg hm, dictLookup_dictSet_ne _ _ _ _ hne]
  by_cases hu : u ∈ reactorsOf R e
  · rw [if_pos hu]
    by_cases hnil : (reactorsOf R e).erase u = []
    · rw [if_pos hnil, reactorsOf, dictLookup_dictDel_ne _ _ _ hne, hens]
      rfl
    · rw [if_neg hnil, reactorsOf, dictLookup_dictSet_ne _ _ _ _ hne, hens]
      rfl
  · rw [if_neg hu, reactorsOf, dictLookup_dictSet_ne _ _ _ _ hne, hens]
    rfl

/-- Any entry of a toggled mapping is an untouched old entry, a
remove-result that stayed nonempty, or an append-result. -/
theorem mem_toggleReactions {R : List (String × List String)} {e u : String}
    {q : String × List String} (hq : q ∈ toggleReactions R e u) :
    (q ∈ R ∧ ¬ q.1 = e) ∨
    (q.1 = e ∧ q.2 = (reactorsOf R e).erase u ∧ ¬ q.2 = []) ∨
    (q.1 = e ∧ q.2 = reactorsOf R e ++ [u] ∧ ¬ u ∈ reactorsOf R e) := by
  simp only [toggleReactions, dictLookup_ensure, Option.getD_some] at hq
  by_cases hu : u ∈ reactorsOf R e
  · rw [if_pos hu] at hq
    by_cases hnil : (reactorsOf R e).erase u = []
    · rw [if_pos hnil] at hq
      rcases mem_dictDel hq with ⟨hq1, hq2⟩
      exact Or.inl ⟨mem_ensure hq1 hq2, hq2⟩
    · rw [if_neg hnil] at hq
      rcases mem_dictSet hq with hq1 | ⟨hq1, hq2⟩
      · refine Or.inr (Or.inl ⟨by rw [hq1], by rw [hq1], ?_⟩)
        rw [hq1]
        exact hnil
      · exact Or.inl ⟨mem_ensure hq1 hq2, hq2⟩
  · rw [if_neg hu] at hq
    rcases mem_dictSet hq with hq1 | ⟨hq1, hq2⟩
    · exact Or.inr (Or.inr ⟨by rw [hq1], by rw [hq1], hu⟩)
    · exact Or.inl ⟨mem_ensure hq1 hq2, hq2⟩

theorem reactorsOf_nodup {R : List (String × List String)}
    (h : ∀ q ∈ R, q.2.Nodup) (e : String) : (reactorsOf R e).Nodup := by
  unfold reactorsOf
  cases hl : dictLookup R e with
  | none => simp
  | some v => exact h (e, v) (dictLookup_mem hl)

theorem toggleReactions_no_empty {R : List (String × List String)}
    {e u : String} (h : ∀ q ∈ R, ¬ q.2 = []) :
    ∀ q ∈ toggleReactions R e u, ¬ q.2 = [] := by
  intro q hq
  rcases mem_toggleReactions hq with ⟨hq1, _⟩ | ⟨_, _, hq3⟩ | ⟨_, hq2, _⟩
  · exact h q hq1
  · exact hq3
  · rw [hq2]
    simp

theorem toggleReactions_nodup {R : List (String × List String)}
    {e u : String} (h : ∀ q ∈ R, q.2.Nodup) :
    ∀ q ∈ toggleReactions R e u, q.2.Nodup := by
  intro q hq
  rcases mem_toggleReactions hq with ⟨hq1, _⟩ | ⟨_, hq2, _⟩ | ⟨_, hq2, hq3⟩
  · exact h q hq1
  · rw [hq2]
    exact (reactorsOf_nodup h e).erase u
  · rw [hq2]
    simp [List.nodup_append, reactorsOf_nodup h e, hq3]

/-- Toggling twice restores the reactor set (involution on sets). -/
theorem reactorsOf_toggle_toggle (R : List (String × List String))
    (e u : String) (h : ∀ q ∈ R, q.2.Nodup) :
    (reactorsOf (toggleReactions (toggleReactions R e u) e u) e).toFinset
      = (reactorsOf R e).toFinset := by
  have hc : (reactorsOf R e).Nodup := reactorsOf_nodup h e
  rw [reactorsOf_toggle, reactorsOf_toggle]
  by_cases hu : u ∈ reactorsOf R e
  · simp only [if_pos hu]
    rw [if_neg hc.not_mem_erase]
    ext x
    simp only [List.mem_toFinset, List.mem_append, List.mem_singleton,
      hc.mem_erase_iff]
    by_cases hx : x = u
    · subst hx
      simp [hu]
    · simp [hx]
  · simp only [if_neg hu]
    rw [if_pos (by simp), List.erase_append_right _ hu]
    simp

/-! ### `handle_reaction` state lemmas -/

theorem getD_mem_of_lt {α : Type} (l : List α) (i : Nat) (d : α)
    (h : i < l.length) : l.getD i d ∈ l := by
  rw [List.getD_eq_getElem l d h]
  exact List.getElem_mem h

/-- The guard of `handle_reaction`: the room has history and the index is
in range. -/
def validReact (s : ServerState) (room : String) (idx : Int) : Prop :=
  dictMem s.chat_history room = true ∧ 0 ≤ idx ∧
    idx < ((histOf s room).length : Int)

instance (s : ServerState) (room : String) (idx : Int) :
    Decidable (validReact s room idx) := by
  unfold validReact
  infer_instance

theorem histOf_entry_mem {s : ServerState} {room : String}
    (h : dictMem s.chat_history room = true) :
    (room, histOf s room) ∈ s.chat_history := by
  rcases dictLookup_isSome_of_mem h with ⟨v, hv⟩
  have : histOf s room = v := by rw [histOf, hv]; rfl
  rw [this]
  exact dictLookup_mem hv

theorem reactStep_invalid (s : ServerState) (room emoji user : String)
    (idx : Int) (hv : ¬ validReact s room idx) :
    reactStep room idx emoji user s = s := by
  unfold reactStep handle_reaction reactEvent handle_reaction_body
  simp only
  rw [if_neg (by exact hv)]
  rfl

theorem reactStep_valid (s : ServerState) (room emoji user : String)
    (idx : Int) (hv : validReact s room idx) :
    reactStep room idx emoji user s =
      { s with chat_history :=
                 dictSet s.chat_history room
                   ((histOf s room).set idx.toNat
                     { (histOf s room).getD idx.toNat mdefault with
                       reactions := toggleReactions
                         ((histOf s room).getD idx.toNat mdefault).reactions
                         emoji user }) } := by
  unfold reactStep handle_reaction reactEvent handle_reaction_body
  simp only
  rw [if_pos (by exact hv)]
  rfl

theorem histOf_reactStep_self (s : ServerState) (room emoji user : String)
    (idx : Int) (hv : validReact s room idx) :
    histOf (reactStep room idx emoji user s) room =
      (histOf s room).set idx.toNat
        { (histOf s room).getD idx.toNat mdefault with
          reactions := toggleReactions
            ((histOf s room).getD idx.toNat mdefault).reactions emoji user } := by
  rw [reactStep_valid s room emoji user idx hv, histOf]
  simp only
  rw [dictLookup_dictSet_self]
  rfl

theorem validReact_reactStep (s : ServerState) (room emoji user : String)
    (idx : Int) (hv : validReact s room idx) :
    validReact (reactStep room idx emoji user s) room idx := by
  refine ⟨?_, hv.2.1, ?_⟩
  · rw [reactStep_valid s room emoji user idx hv]
    exact dictMem_dictSet_self _ _ _
  · rw [histOf_reactStep_self s room emoji user idx hv, List.length_set]
    exact hv.2.2

theorem idx_toNat_lt {s : ServerState} {room : String} {idx : Int}
    (hv : validReact s room idx) : idx.toNat < (histOf s room).length := by
  exact (Int.toNat_lt hv.2.1).mpr hv.2.2

theorem reactionsAt_reactStep (s : ServerState) (room emoji user : String)
    (idx : Int) (hv : validReact s room idx) :
    reactionsAt (reactStep room idx emoji user s) room idx.toNat =
      toggleReactions (reactionsAt s room idx.toNat) emoji user := by
  rw [reactionsAt, histOf_reactStep_self s room emoji user idx hv]
  rw [List.getD_eq_getElem?_getD, List.getElem?_set_self (idx_toNat_lt hv)]
  rfl

theorem reactionsAt_nodup {s : ServerState} {room : String} {idx : Int}
    (hnd : ReactNodup s) (hv : validReact s room idx) :
    ∀ q ∈ reactionsAt s room idx.toNat, q.2.Nodup := by
  intro q hq
  exact hnd (room, histOf s room) (histOf_entry_mem hv.1)
    ((histOf s room).getD idx.toNat mdefault)
    (getD_mem_of_lt _ _ _ (idx_toNat_lt hv)) q hq

theorem reactNodup_reactStep (s : ServerState) (room emoji user : String)
    (idx : Int) (hnd : ReactNodup s) :
    ReactNodup (reactStep room idx emoji user s) := by
  by_cases hv : validReact s room idx
  · rw [reactStep_valid s room emoji user idx hv]
    intro p hp m hm q hq
    rcases mem_dictSet hp with hp1 | ⟨hp1, _⟩
    · rw [hp1] at hm
      simp only at hm
      rcases List.mem_or_eq_of_mem_set hm with hm1 | hm2
      · exact hnd (room, histOf s room) (histOf_entry_mem hv.1) m hm1 q hq
      · rw [hm2] at hq
        simp only at hq
        exact toggleReactions_nodup (reactionsAt_nodup hnd hv) q hq
    · exact hnd p hp1 m hm q hq
  · rw [reactStep_invalid s room emoji user idx hv]
    exact hnd

theorem reactNodup_iterate (s : ServerState) (room emoji user : String)
    (idx : Int) (m : Nat) (hnd : ReactNodup s) :
    ReactNodup ((reactStep room idx emoji user)^[m] s) := by
  induction m with
  | zero => exact hnd
  | succ m ih =>
    rw [Function.iterate_succ_apply']
    exact reactNodup_reactStep _ room emoji user idx ih

theorem reactorList_pair (s : ServerState) (room emoji user : String)
    (idx : Int) (hnd : ReactNodup s) :
    (reactorList (reactStep room idx emoji user
        (reactStep room idx emoji user s)) room idx.toNat emoji).toFinset
      = (reactorList s room idx.toNat emoji).toFinset := by
  by_cases hv : validReact s room idx
  · have hv' := validReact_reactStep s room emoji user idx hv
    rw [reactorList, reactionsAt_reactStep _ room emoji user idx hv',
      reactionsAt_reactStep s room emoji user idx hv]
    exact reactorsOf_toggle_toggle _ emoji user (reactionsAt_nodup hnd hv)
  · rw [reactStep_invalid s room emoji user idx hv,
      reactStep_invalid s room emoji user idx hv]

/-- A state with one message in "Open Mic" carrying one 👍 reaction,
used to instantiate the hypothesis-bearing theorems. -/
def wState : ServerState :=
  { active_users :=
      [("sid1", { username := "alice", connected_at := "t0",
                  room := some "Open Mic" })],
    typing_users := [],
    chat_history :=
      [("Open Mic", [{ msg := "hi", username := "alice", timestamp := "t1",
                       reactions := [("👍", ["bob"])] }])] }

/-- C1: the reaction toggle is an involution per identity.  In any state
whose reactor lists are duplicate-free (true of every reachable state),
an even number `2 * n` of `react_to_message` events by the same user on
the same `(room, index, emoji)` triple, with no other toggles
interleaved, leaves the reactor set recorded for `(index, emoji)`
unchanged. -/
theorem reaction_toggle_involution (s : ServerState) (room : String)
    (idx : Int) (emoji user : String) (n : Nat) (hnd : ReactNodup s) :
    (reactorList ((reactStep room idx emoji user)^[2 * n] s)
        room idx.toNat emoji).toFinset
      = (reactorList s room idx.toNat emoji).toFinset := by
  induction n with
  | zero => rfl
  | succ n ih =>
    have h2 : 2 * (n + 1) = 2 + 2 * n := by ring
    rw [h2, Function.iterate_add_apply]
    have hnd' := reactNodup_iterate s room emoji user idx (2 * n) hnd
    have hpair := reactorList_pair ((reactStep room idx emoji user)^[2 * n] s)
      room emoji user idx hnd'
    have h22 : (reactStep room idx emoji user)^[2]
        ((reactStep room idx emoji user)^[2 * n] s)
        = reactStep room idx emoji user (reactStep room idx emoji user
            ((reactStep room idx emoji user)^[2 * n] s)) := by
      rw [Function.iterate_succ_apply', Function.iterate_one]
    rw [h22, hpair, ih]

/-- Witness for C1 at a concrete state: two 👍 toggles by "bob" on
message 0 of "Open Mic" restore the reactor set. -/
theorem reaction_toggle_involution_witness :
    ReactNodup wState ∧
      (reactorList ((reactStep "Open Mic" 0 "👍" "bob")^[2 * 1] wState)
          "Open Mic" (Int.toNat 0) "👍").toFinset
        = (reactorList wState "Open Mic" (Int.toNat 0) "👍").toFinset :=
  ⟨by decide, reaction_toggle_involution wState "Open Mic" 0 "👍" "bob" 1
    (by decide)⟩

/-! ### Per-handler state lemmas -/

theorem chat_history_connect (s : ServerState) (sid u now : String)
    (a : Bool) : (handle_connect s sid u now a).1.chat_history
      = s.chat_history := by
  unfold handle_connect
  split <;> rfl

theorem chat_history_disconnect (s : ServerState) (sid : String) :
    (handle_disconnect s sid).1.chat_history = s.chat_history := by
  unfold handle_disconnect
  split <;> rfl

theorem chat_history_join (s : ServerState) (d : EventData)
    (sid u now : String) :
    (on_join s d sid u now).1.chat_history = s.chat_history := by
  obtain ⟨droom, dt, dm, dtg, di, de, dty⟩ := d
  cases droom with
  | none => rfl
  | some room =>
    unfold on_join on_join_body tryExcept
    simp only
    by_cases hr : room ∈ CHAT_ROOMS
    · rw [if_neg (by simpa using hr)]
      cases dictLookup s.active_users sid <;> rfl
    · rw [if_pos (by simpa using hr)]

theorem chat_history_leave (s : ServerState) (d : EventData)
    (sid u now : String) :
    (on_leave s d sid u now).1.chat_history = s.chat_history := by
  obtain ⟨droom, dt, dm, dtg, di, de, dty⟩ := d
  cases droom with
  | none => rfl
  | some room =>
    unfold on_leave on_leave_body tryExcept
    simp only
    cases dictLookup s.active_users sid <;> rfl

theorem chat_history_typing (s : ServerState) (d : EventData) (u : String) :
    (stepState s (InEvent.typing d u)).chat_history = s.chat_history := by
  obtain ⟨droom, dt, dm, dtg, di, de, dty⟩ := d
  cases droom with
  | none => rfl
  | some room =>
    cases dty with
    | none => rfl
    | some typing => rfl

/-- `handle_message` either leaves the state unchanged or appends one
fresh message (empty reactions) to one catalog room's history. -/
theorem handle_message_state (s : ServerState) (d : EventData)
    (u now : String) :
    (handle_message s d u now).1 = s ∨
    ∃ room, room ∈ CHAT_ROOMS ∧ (handle_message s d u now).1 =
      { s with chat_history :=
                 dictSet s.chat_history room
                   ((dictLookup s.chat_history room).getD [] ++
                     [{ msg := (d.msg.getD "").trim, username := u,
                        timestamp := now, reactions := [] }]) } := by
  simp only [handle_message]
  split
  · left; rfl
  · split
    · split
      · left; rfl
      · split
        · left; rfl
        · split
          · left; rfl
          · left; rfl
    · split
      · left; rfl
      · rename_i hmem
        right
        exact ⟨d.room.getD "General", not_not.mp hmem, rfl⟩

/-- `handle_reaction` either leaves the state unchanged or performs one
`reactStep`. -/
theorem handle_reaction_state (s : ServerState) (d : EventData) (u : String) :
    (handle_reaction s d u).1 = s ∨
    ∃ room idx emoji,
      (handle_reaction s d u).1 = reactStep room idx emoji u s := by
  obtain ⟨droom, dt, dm, dtg, di, de, dty⟩ := d
  cases droom with
  | none => left; rfl
  | some room =>
    cases di with
    | none => left; rfl
    | some idx =>
      cases de with
      | none => left; rfl
      | some emoji => right; exact ⟨room, idx, emoji, rfl⟩

theorem noEmpty_of_chat_history_eq {s s' : ServerState}
    (heq : s'.chat_history = s.chat_history) (h : NoEmptyReactions s) :
    NoEmptyReactions s' := by
  intro p hp
  rw [heq] at hp
  exact h p hp

theorem reactionsAt_no_empty {s : ServerState} {room : String} {idx : Int}
    (h : NoEmptyReactions s) (hv : validReact s room idx) :
    ∀ q ∈ reactionsAt s room idx.toNat, ¬ q.2 = [] := by
  intro q hq
  exact h (room, histOf s room) (histOf_entry_mem hv.1)
    ((histOf s room).getD idx.toNat mdefault)
    (getD_mem_of_lt _ _ _ (idx_toNat_lt hv)) q hq

theorem noEmpty_reactStep (s : ServerState) (room emoji user : String)
    (idx : Int) (h : NoEmptyReactions s) :
    NoEmptyReactions (reactStep room idx emoji user s) := by
  by_cases hv : validReact s room idx
  · rw [reactStep_valid s room emoji user idx hv]
    intro p hp m hm q hq
    rcases mem_dictSet hp with hp1 | ⟨hp1, _⟩
    · rw [hp1] at hm
      simp only at hm
      rcases List.mem_or_eq_of_mem_set hm with hm1 | hm2
      · exact h (room, histOf s room) (histOf_entry_mem hv.1) m hm1 q hq
      · rw [hm2] at hq
        simp only at hq
        exact toggleReactions_no_empty (reactionsAt_no_empty h hv) q hq
    · exact h p hp1 m hm q hq
  · rw [reactStep_invalid s room emoji user idx hv]
    exact h

/-- C2: invariant preserved by every event handler: no message's
reactions mapping ever contains an emoji entry with an empty reactor
set — the entry is deleted in the same toggle that removes the last
reactor. -/
theorem no_empty_reactions_invariant (e : InEvent) (s : ServerState)
    (h : NoEmptyReactions s) : NoEmptyReactions (stepState s e) := by
  cases e with
  | connect sid u now a =>
    exact noEmpty_of_chat_history_eq (chat_history_connect s sid u now a) h
  | disconnect sid =>
    exact noEmpty_of_chat_history_eq (chat_history_disconnect s sid) h
  | join d sid u now =>
    exact noEmpty_of_chat_history_eq (chat_history_join s d sid u now) h
  | leave d sid u now =>
    exact noEmpty_of_chat_history_eq (chat_history_leave s d sid u now) h
  | message d u now =>
    have hs : stepState s (InEvent.message d u now)
        = (handle_message s d u now).1 := rfl
    rcases handle_message_state s d u now with h1 | ⟨room, _, h1⟩
    · rw [hs, h1]
      exact h
    · rw [hs, h1]
      intro p hp m hm q hq
      rcases mem_dictSet hp with hp1 | ⟨hp1, _⟩
      · rw [hp1] at hm
        simp only at hm
        rcases List.mem_append.mp hm with hm1 | hm2
        · cases hl : dictLookup s.chat_history room with
          | none =>
            rw [hl] at hm1
            simp at hm1
          | some v =>
            rw [hl] at hm1
            exact h (room, v) (dictLookup_mem hl) m (by simpa using hm1) q hq
        · rw [List.mem_singleton.mp hm2] at hq
          simp at hq
      · exact h p hp1 m hm q hq
  | react d u =>
    have hs : stepState s (InEvent.react d u) = (handle_reaction s d u).1 := rfl
    rcases handle_reaction_state s d u with h1 | ⟨room, idx, emoji, h1⟩
    · rw [hs, h1]
      exact h
    · rw [hs, h1]
      exact noEmpty_reactStep s room emoji u idx h
  | typing d u =>
    exact noEmpty_of_chat_history_eq (chat_history_typing s d u) h

/-- Witness for C2: a 👍 toggle by "bob" on the concrete state preserves
the invariant. -/
theorem no_empty_reactions_invariant_witness :
    NoEmptyReactions wState ∧
      NoEmptyReactions (stepState wState
        (InEvent.react (reactEvent "Open Mic" 0 "👍") "bob")) :=
  ⟨by decide, no_empty_reactions_invariant
    (InEvent.react (reactEvent "Open Mic" 0 "👍") "bob") wState (by decide)⟩

theorem histOf_of_chat_history_eq {s s' : ServerState}
    (h : s'.chat_history = s.chat_history) (room : String) :
    histOf s' room = histOf s room := by
  rw [histOf, histOf, h]

theorem histOf_reactStep_ne (s : ServerState) (room emoji user : String)
    (idx : Int) (r' : String) (hne : ¬ r' = room) :
    histOf (reactStep room idx emoji user s) r' = histOf s r' := by
  by_cases hv : validReact s room idx
  · rw [reactStep_valid s room emoji user idx hv, histOf, histOf]
    simp only
    rw [dictLookup_dictSet_ne _ _ _ _ hne]
    rfl
  · rw [reactStep_invalid s room emoji user idx hv]

/-- After any single event, a room's history is unchanged, extended by
one appended message, or has exactly one message's reactions replaced in
place (its content untouched). -/
theorem histOf_step_cases (e : InEvent) (s : ServerState) (room : String) :
    histOf (stepState s e) room = histOf s room ∨
    (∃ m, histOf (stepState s e) room = histOf s room ++ [m]) ∨
    (∃ j m', j < (histOf s room).length ∧
      msgCore m' = msgCore ((histOf s room).getD j mdefault) ∧
      histOf (stepState s e) room = (histOf s room).set j m') := by
  cases e with
  | connect sid u now a =>
    exact Or.inl (histOf_of_chat_history_eq (chat_history_connect s sid u now a) room)
  | disconnect sid =>
    exact Or.inl (histOf_of_chat_history_eq (chat_history_disconnect s sid) room)
  | join d sid u now =>
    exact Or.inl (histOf_of_chat_history_eq (chat_history_join s d sid u now) room)
  | leave d sid u now =>
    exact Or.inl (histOf_of_chat_history_eq (chat_history_leave s d sid u now) room)
  | typing d u =>
    exact Or.inl (histOf_of_chat_history_eq (chat_history_typing s d u) room)
  | message d u now =>
    have hs : stepState s (InEvent.message d u now)
        = (handle_message s d u now).1 := rfl
    rcases handle_message_state s d u now with h1 | ⟨r, _, h1⟩
    · exact Or.inl (by rw [hs, h1])
    · by_cases hr : room = r
      · subst hr
        refine Or.inr (Or.inl ⟨{ msg := (d.msg.getD "").trim, username := u,
                                 timestamp := now, reactions := [] }, ?_⟩)
        rw [hs, h1, histOf, histOf]
        simp only
        rw [dictLookup_dictSet_self]
        rfl
      · refine Or.inl ?_
        rw [hs, h1, histOf, histOf]
        simp only
        rw [dictLookup_dictSet_ne _ _ _ _ hr]
  | react d u =>
    have hs : stepState s (InEvent.react d u) = (handle_reaction s d u).1 := rfl
    rcases handle_reaction_state s d u with h1 | ⟨r, idx, emoji, h1⟩
    · exact Or.inl (by rw [hs, h1])
    · rw [hs, h1]
      by_cases hr : room = r
      · subst hr
        by_cases hv : validReact s room idx
        · refine Or.inr (Or.inr ⟨idx.toNat,
            { (histOf s room).getD idx.toNat mdefault with
              reactions := toggleReactions
                ((histOf s room).getD idx.toNat mdefault).reactions emoji u },
            idx_toNat_lt hv, rfl,
            histOf_reactStep_self s room emoji u idx hv⟩)
        · exact Or.inl (by rw [reactStep_invalid s room emoji u idx hv])
      · exact Or.inl (histOf_reactStep_ne s r emoji u idx room hr)

/-- C6: message indices are strictly increasing per room (history length
never decreases, appends go to the end) and stable: a message's content
(text, author, timestamp) at any in-range index is unchanged by every
later event. -/
theorem history_indices_stable (e : InEvent) (s : ServerState)
    (room : String) (i : Nat) (hi : i < (histOf s room).length) :
    (histOf s room).length ≤ (histOf (stepState s e) room).length ∧
    i < (histOf (stepState s e) room).length ∧
    msgCore ((histOf (stepState s e) room).getD i mdefault)
      = msgCore ((histOf s room).getD i mdefault) := by
  rcases histOf_step_cases e s room with h1 | ⟨m, h1⟩ | ⟨j, m', hj, hcore, h1⟩
  · rw [h1]
    exact ⟨Nat.le_refl _, hi, rfl⟩
  · rw [h1, List.length_append]
    refine ⟨Nat.le_add_right _ _, Nat.lt_of_lt_of_le hi (Nat.le_add_right _ _), ?_⟩
    rw [List.getD_append _ _ _ _ hi]
  · rw [h1, List.length_set]
    refine ⟨Nat.le_refl _, hi, ?_⟩
    by_cases hij : i = j
    · subst hij
      rw [List.getD_eq_getElem?_getD, List.getElem?_set_self hi,
        Option.getD_some]
      exact hcore
    · rw [List.getD_eq_getElem?_getD,
        List.getElem?_set_ne (fun hh => hij hh.symm), ← List.getD_eq_getElem?_getD]

/-- Witness for C6: appending a second message to "Open Mic" keeps the
message at index 0 intact. -/
theorem history_indices_stable_witness :
    0 < (histOf wState "Open Mic").length ∧
      ((histOf wState "Open Mic").length ≤
        (histOf (stepState wState (InEvent.message
          { room := some "Open Mic", type_ := none, msg := some "yo",
            target := none, index := none, emoji := none, typing := none }
          "carol" "t2")) "Open Mic").length ∧
      0 < (histOf (stepState wState (InEvent.message
          { room := some "Open Mic", type_ := none, msg := some "yo",
            target := none, index := none, emoji := none, typing := none }
          "carol" "t2")) "Open Mic").length ∧
      msgCore ((histOf (stepState wState (InEvent.message
          { room := some "Open Mic", type_ := none, msg := some "yo",
            target := none, index := none, emoji := none, typing := none }
          "carol" "t2")) "Open Mic").getD 0 mdefault)
        = msgCore ((histOf wState "Open Mic").getD 0 mdefault)) :=
  ⟨by decide, history_indices_stable
    (InEvent.message
      { room := some "Open Mic", type_ := none, msg := some "yo",
        target := none, index := none, emoji := none, typing := none }
      "carol" "t2") wState "Open Mic" 0 (by decide)⟩

/-! ### Typing status -/

/-- The payload of a `typing` event. -/
def typingEvent (room : String) (t : Bool) : EventData :=
  { room := some room, type_ := none, msg := none, target := none,
    index := none, emoji := none, typing := some t }

theorem statusMsg_ge3 (l : List String) (h : 3 ≤ l.length) :
    statusMsg l = "Several people are typing..." := by
  unfold statusMsg
  rw [if_neg (by omega), if_neg (by omega), if_neg (by omega)]

/-- The typing set of a room after a typing event's add/discard update
(`typing_users[room].add(username)` / `.discard(username)`,
src/main.py:319-325).  The ensure-key step at lines 319-320 does not
change the looked-up set, so this reads directly from the pre-state. -/
def updatedTyping (s : ServerState) (room username : String)
    (typing : Bool) : List String :=
  if typing then setAdd ((dictLookup s.typing_users room).getD []) username
  else setDiscard ((dictLookup s.typing_users room).getD []) username

/-- The typers of the room other than the triggering identity:
`users_typing = typing_users[room] - {username}` (src/main.py:327). -/
def typingOthers (s : ServerState) (room username : String)
    (typing : Bool) : List String :=
  (updatedTyping s room username typing).filter (fun y => ¬ y = username)

/-- C3: the status string broadcast for a typing event is `statusMsg` of
the room's actual updated typing set minus the triggering identity, and
that string follows the exact count policy on those others: 0 gives the
empty string, 1 names the one other, 2 names both (in some order), and
3 or more gives the generic message.  The trigger is never among the
others. -/
theorem typing_status_policy (s : ServerState) (room username : String)
    (typing : Bool) :
    handle_typing s (typingEvent room typing) username
      = Except.ok
          ({ s with typing_users :=
                      dictSet (if dictMem s.typing_users room
                               then s.typing_users
                               else dictSet s.typing_users room []) room
                        (updatedTyping s room username typing) },
           [OutEvent.status (statusMsg (typingOthers s room username typing))
              "typing" (some room) none (Target.toRoom room)]) ∧
    ¬ username ∈ typingOthers s room username typing ∧
    ((typingOthers s room username typing).length = 0 →
      statusMsg (typingOthers s room username typing) = "") ∧
    (∀ a, typingOthers s room username typing = [a] →
      statusMsg (typingOthers s room username typing)
        = a ++ " is typing...") ∧
    (∀ a b, typingOthers s room username typing = [a, b] →
      statusMsg (typingOthers s room username typing)
          = a ++ " and " ++ b ++ " are typing..." ∨
        statusMsg (typingOthers s room username typing)
          = b ++ " and " ++ a ++ " are typing...") ∧
    (3 ≤ (typingOthers s room username typing).length →
      statusMsg (typingOthers s room username typing)
        = "Several people are typing...") := by
  have hcur : (dictLookup (if dictMem s.typing_users room
      then s.typing_users else dictSet s.typing_users room []) room).getD
        ([] : List String)
      = (dictLookup s.typing_users room).getD [] := by
    rw [dictLookup_ensure]
    rfl
  refine ⟨?_, ?_, ?_, ?_, ?_, ?_⟩
  · simp only [handle_typing, typingEvent]
    rw [hcur]
    rfl
  · intro hmem
    have := List.of_mem_filter hmem
    simp at this
  · intro h0
    rw [List.length_eq_zero.mp h0]
    rfl
  · intro a ha
    rw [ha]
    rfl
  · intro a b hab
    rw [hab]
    left
    rfl
  · exact statusMsg_ge3 _

/-- Witness for C3 at the concrete state (empty typing sets),
"alice" starts typing in "Open Mic". -/
theorem typing_status_policy_witness :
    handle_typing wState (typingEvent "Open Mic" true) "alice"
      = Except.ok
          ({ wState with typing_users :=
                           dictSet (if dictMem wState.typing_users "Open Mic"
                                    then wState.typing_users
                                    else dictSet wState.typing_users
                                           "Open Mic" []) "Open Mic"
                             (updatedTyping wState "Open Mic" "alice" true) },
           [OutEvent.status
              (statusMsg (typingOthers wState "Open Mic" "alice" true))
              "typing" (some "Open Mic") none (Target.toRoom "Open Mic")]) ∧
    ¬ "alice" ∈ typingOthers wState "Open Mic" "alice" true ∧
    ((typingOthers wState "Open Mic" "alice" true).length = 0 →
      statusMsg (typingOthers wState "Open Mic" "alice" true) = "") ∧
    (∀ a, typingOthers wState "Open Mic" "alice" true = [a] →
      statusMsg (typingOthers wState "Open Mic" "alice" true)
        = a ++ " is typing...") ∧
    (∀ a b, typingOthers wState "Open Mic" "alice" true = [a, b] →
      statusMsg (typingOthers wState "Open Mic" "alice" true)
          = a ++ " and " ++ b ++ " are typing..." ∨
        statusMsg (typingOthers wState "Open Mic" "alice" true)
          = b ++ " and " ++ a ++ " are typing...") ∧
    (3 ≤ (typingOthers wState "Open Mic" "alice" true).length →
      statusMsg (typingOthers wState "Open Mic" "alice" true)
        = "Several people are typing...") :=
  typing_status_policy wState "Open Mic" "alice" true

/-! ### Failure policy -/

/-- Every handler other than `typing` either has a `try/except` or takes
no payload, so its dispatch always returns a result. -/
theorem dispatch_ok_of_not_typing (s : ServerState) (e : InEvent)
    (h : ∀ d u, ¬ e = InEvent.typing d u) :
    ∃ v, dispatch s e = Except.ok v := by
  cases e with
  | connect sid u now a => exact ⟨_, rfl⟩
  | disconnect sid => exact ⟨_, rfl⟩
  | join d sid u now => exact ⟨_, rfl⟩
  | leave d sid u now => exact ⟨_, rfl⟩
  | message d u now => exact ⟨_, rfl⟩
  | react d u => exact ⟨_, rfl⟩
  | typing d u => exact absurd rfl (h d u)

/-- C4 fails on the code: `handle_typing` (src/main.py:313-343) has no
`try/except`, so a typing payload missing the `room` key propagates an
uncaught `KeyError` instead of being logged and dropped. -/
theorem typing_missing_room_raises :
    dispatch initialState (InEvent.typing
      { room := none, type_ := none, msg := none, target := none,
        index := none, emoji := none, typing := some true } "alice")
      = Except.error (PErr.keyError "room") := rfl

/-! ### Join / leave / disconnect -/

/-- The payload of a `join` or `leave` event. -/
def roomEvent (room : String) : EventData :=
  { room := some room, type_ := none, msg := none, target := none,
    index := none, emoji := none, typing := none }

/-- C5: a join to a room outside the fixed catalog leaves the whole
engine state unchanged and emits nothing. -/
theorem join_invalid_room_no_effect (s : ServerState) (d : EventData)
    (room sid username now : String) (hd : d.room = some room)
    (h : ¬ room ∈ CHAT_ROOMS) :
    on_join s d sid username now = (s, []) := by
  unfold on_join on_join_body tryExcept
  rw [hd]
  simp only
  rw [if_pos (by simpa using h)]

/-- Witness for C5: joining the non-catalog room "General" has no
effect. -/
theorem join_invalid_room_no_effect_witness :
    (roomEvent "General").room = some "General" ∧
      ¬ "General" ∈ CHAT_ROOMS ∧
      on_join wState (roomEvent "General") "sid1" "alice" "t2"
        = (wState, []) :=
  ⟨rfl, by decide, join_invalid_room_no_effect wState (roomEvent "General")
    "General" "sid1" "alice" "t2" rfl (by decide)⟩

theorem handle_disconnect_absent (s : ServerState) (sid : String)
    (h : dictMem s.active_users sid = false) :
    handle_disconnect s sid = (s, []) := by
  unfold handle_disconnect
  rw [if_neg (by simp [h])]

/-- C8: disconnect is idempotent per connection: the first disconnect
removes the connection from the roster, and a second disconnect for the
same id leaves the state unchanged, emits nothing and does not fail. -/
theorem disconnect_idempotent (s : ServerState) (sid : String)
    (h : dictMem s.active_users sid = true) :
    dictMem (handle_disconnect s sid).1.active_users sid = false ∧
      handle_disconnect (handle_disconnect s sid).1 sid
        = ((handle_disconnect s sid).1, []) := by
  have h1 : (handle_disconnect s sid).1.active_users
      = dictDel s.active_users sid := by
    unfold handle_disconnect
    rw [if_pos (by exact h)]
  have h2 : dictMem (dictDel s.active_users sid) sid = false := by
    cases hmem : dictMem (dictDel s.active_users sid) sid with
    | false => rfl
    | true =>
      rcases dictLookup_isSome_of_mem hmem with ⟨v, hv⟩
      rw [dictLookup_dictDel_self] at hv
      exact Option.noConfusion hv
  refine ⟨by rw [h1]; exact h2, ?_⟩
  exact handle_disconnect_absent _ sid (by rw [h1]; exact h2)

/-- Witness for C8 at the concrete state. -/
theorem disconnect_idempotent_witness :
    dictMem wState.active_users "sid1" = true ∧
      (dictMem (handle_disconnect wState "sid1").1.active_users "sid1" = false ∧
        handle_disconnect (handle_disconnect wState "sid1").1 "sid1"
          = ((handle_disconnect wState "sid1").1, [])) :=
  ⟨by decide, disconnect_idempotent wState "sid1" (by decide)⟩

/-! ### Private messages -/

/-- C7: a private message whose target matches no registered connection
produces no outbound event, raises nothing, and leaves the state
unchanged. -/
theorem private_message_absent_target_no_effect (s : ServerState)
    (d : EventData) (username now : String)
    (hpriv : d.type_ = some "private")
    (habs : ∀ p ∈ s.active_users, ¬ d.target = some p.2.username) :
    handle_message s d username now = (s, []) := by
  simp only [handle_message, hpriv, Option.getD_some]
  split
  · rfl
  · rw [if_pos trivial]
    split
    · rfl
    · rename_i t ht
      split
      · rfl
      · split
        · rename_i p hp
          exfalso
          have hmem := List.mem_of_find?_eq_some hp
          have hpu : p.2.username = t := by simpa using List.find?_some hp
          exact habs p hmem (by rw [ht, hpu])
        · rfl

/-- Witness for C7: a private message to the unknown "mallory" is
dropped silently. -/
theorem private_message_absent_target_no_effect_witness :
    ({ room := none, type_ := some "private", msg := some "psst",
       target := some "mallory", index := none, emoji := none,
       typing := none } : EventData).type_ = some "private" ∧
      (∀ p ∈ wState.active_users,
        ¬ ({ room := none, type_ := some "private", msg := some "psst",
             target := some "mallory", index := none, emoji := none,
             typing := none } : EventData).target = some p.2.username) ∧
      handle_message wState
        { room := none, type_ := some "private", msg := some "psst",
          target := some "mallory", index := none, emoji := none,
          typing := none } "alice" "t2" = (wState, []) :=
  ⟨rfl, by decide, private_message_absent_target_no_effect wState
    { room := none, type_ := some "private", msg := some "psst",
      target := some "mallory", index := none, emoji := none,
      typing := none } "alice" "t2" rfl (by decide)⟩

/-! ### Join history replay -/

/-- A state with a registered connection and no chat history yet. -/
def freshState : ServerState :=
  { active_users :=
      [("sid1", { username := "alice", connected_at := "t0", room := none })],
    typing_users := [],
    chat_history := [] }

/-- Counterexample to C9 as stated: joining the catalog room "Open Mic"
while it has no history entry emits only the status event — no
`chat_history` event (with an empty message list or otherwise) is sent
to the joining connection. -/
theorem join_no_history_no_replay :
    (on_join freshState (roomEvent "Open Mic") "sid1" "alice" "t1").2
      = [OutEvent.status "alice has joined the room." "join" none
          (some "t1") (Target.toRoom "Open Mic")] := by decide

/-- C9 amended: for a join to a catalog room by a registered connection,
the room's history is replayed to the joining connection only when the
room already has a history entry; a room with no messages yet gets no
`chat_history` event (and no error). -/
theorem join_valid_room_history_replay (s : ServerState) (d : EventData)
    (room sid username now : String) (ud : UserData)
    (hd : d.room = some room) (hroom : room ∈ CHAT_ROOMS)
    (hud : dictLookup s.active_users sid = some ud) :
    (∀ msgs, dictLookup s.chat_history room = some msgs →
      on_join s d sid username now
        = ({ s with active_users :=
                      dictSet s.active_users sid { ud with room := some room } },
           [OutEvent.status (username ++ " has joined the room.") "join"
              none (some now) (Target.toRoom room),
            OutEvent.chatHistory room msgs (Target.toSid sid)])) ∧
    (dictLookup s.chat_history room = none →
      on_join s d sid username now
        = ({ s with active_users :=
                      dictSet s.active_users sid { ud with room := some room } },
           [OutEvent.status (username ++ " has joined the room.") "join"
              none (some now) (Target.toRoom room)])) := by
  constructor
  · intro msgs hh
    unfold on_join on_join_body tryExcept
    rw [hd]
    simp only
    rw [if_neg (not_not_intro hroom), hud, hh]
  · intro hh
    unfold on_join on_join_body tryExcept
    rw [hd]
    simp only
    rw [if_neg (not_not_intro hroom), hud, hh]

/-- Witness for the amended C9: joining "Open Mic" on the concrete state
replays its one-message history to the joining connection only. -/
theorem join_valid_room_history_replay_witness :
    on_join wState (roomEvent "Open Mic") "sid1" "alice" "t2"
      = ({ wState with active_users :=
                         dictSet wState.active_users "sid1"
                           { username := "alice", connected_at := "t0",
                             room := some "Open Mic" } },
         [OutEvent.status "alice has joined the room." "join" none
            (some "t2") (Target.toRoom "Open Mic"),
          OutEvent.chatHistory "Open Mic"
            [{ msg := "hi", username := "alice", timestamp := "t1",
               reactions := [("👍", ["bob"])] }] (Target.toSid "sid1")]) :=
  (join_valid_room_history_replay wState (roomEvent "Open Mic") "Open Mic"
    "sid1" "alice" "t2"
    { username := "alice", connected_at := "t0", room := some "Open Mic" }
    rfl (by decide) (by decide)).1
    [{ msg := "hi", username := "alice", timestamp := "t1",
       reactions := [("👍", ["bob"])] }] (by decide)

/-! ### Default room -/

/-- C10: a non-private message whose payload omits the room field gets
the default room "General", which is not in the fixed catalog, so it is
always dropped: no history append, no outbound event, for any text and
sender. -/
theorem message_default_room_dropped (s : ServerState) (d : EventData)
    (username now : String) (hroom : d.room = none)
    (hpriv : ¬ d.type_.getD "message" = "private") :
    ¬ "General" ∈ CHAT_ROOMS ∧ handle_message s d username now = (s, []) := by
  refine ⟨by decide, ?_⟩
  simp only [handle_message, hroom, Option.getD_none]
  by_cases hm : (d.msg.getD "").trim = ""
  · rw [if_pos hm]
  · rw [if_neg hm, if_neg hpriv, if_pos (by decide)]

/-- Witness for C10: a roomless "hi" from "alice" is dropped. -/
theorem message_default_room_dropped_witness :
    ({ room := none, type_ := none, msg := some "hi", target := none,
       index := none, emoji := none, typing := none } : EventData).room = none ∧
      ¬ ({ room := none, type_ := none, msg := some "hi", target := none,
           index := none, emoji := none,
           typing := none } : EventData).type_.getD "message" = "private" ∧
      (¬ "General" ∈ CHAT_ROOMS ∧
        handle_message wState
          { room := none, type_ := none, msg := some "hi", target := none,
            index := none, emoji := none, typing := none } "alice" "t2"
          = (wState, [])) :=
  ⟨rfl, by decide, message_default_room_dropped wState
    { room := none, type_ := none, msg := some "hi", target := none,
      index := none, emoji := none, typing := none } "alice" "t2" rfl
    (by decide)⟩

end Chat
